import Mathlib

/-!
A shallow embedding of the `lttb` crate (largest-triangle-three-buckets
downsampling, `src/lib.rs`) and proofs about it.

Modelling choices:
* The generic float type `T : Float` is modelled by `ℚ` (exact arithmetic);
  `usize` is modelled by `ℕ`.
* `usize` subtraction and slice indexing panic on underflow / out of bounds in
  Rust; panics are modelled as the outcome `Fail.panicked`.
* `num::cast::cast : T -> Option<usize>` fails on negative values (and, for a
  bounded machine type, on overflow, which the unbounded `ℕ` model idealizes
  away); its failure is `Fail.conversionError`, the model of the crate's
  `ConversionError`.
* Over `ℚ`, division by zero yields `0` (Lean's convention) where IEEE floats
  yield `±inf`/NaN.  The only reachable zero-denominator divisions
  (`every` when `threshold == 2`, which the code never uses afterwards)
  do not influence any observable result, so the convention is benign.
-/

namespace Lttb

/-- A single datapoint in a time series (`DataPoint<T>` with `T` read as `ℚ`). -/
structure DataPoint where
  x : ℚ
  y : ℚ
deriving DecidableEq

/-- Default point used with `List.getD`; every proved access is in bounds. -/
def dflt : DataPoint := ⟨0, 0⟩

/-- Failure outcomes of a call: the crate's `ConversionError`, or a Rust panic
(index out of bounds / `usize` subtraction underflow in a debug build). -/
inductive Fail where
  | conversionError
  | panicked
deriving DecidableEq

/-- Computation that can fail with a `Fail`. -/
abbrev M (α : Type) := Except Fail α

instance {ε α : Type} [DecidableEq ε] [DecidableEq α] :
    DecidableEq (Except ε α) := fun x y =>
  match x, y with
  | .ok a, .ok b =>
    if h : a = b then isTrue (congrArg Except.ok h)
    else isFalse (fun hc => h (Except.ok.inj hc))
  | .ok _, .error _ => isFalse (fun hc => Except.noConfusion hc)
  | .error _, .ok _ => isFalse (fun hc => Except.noConfusion hc)
  | .error e, .error f =>
    if h : e = f then isTrue (congrArg Except.error h)
    else isFalse (fun hc => h (Except.error.inj hc))

/-- Slice indexing `data[i]`: panics when out of bounds. -/
def getPoint (data : List DataPoint) (i : Nat) : M DataPoint :=
  if i < data.length then .ok (data.getD i dflt) else .error .panicked

/-- `usize` subtraction: panics on underflow. -/
def usizeSub (a b : Nat) : M Nat :=
  if b ≤ a then .ok (a - b) else .error .panicked

/-- `cast::<T, usize>(q)` followed by `.ok_or(CONVERSION_ERROR)?`: truncation
toward zero of a non-negative value, conversion error on a negative one. -/
def castToUsize (q : ℚ) : M Nat :=
  if q < 0 then .error .conversionError else .ok ⌊q⌋₊

/-- One step of the bucket-average accumulation
(`avg_x = avg_x + data[idx].x; avg_y = avg_y + data[idx].y`). -/
def avgStep (data : List DataPoint) (start : Nat) (acc : ℚ × ℚ) (k : Nat) :
    M (ℚ × ℚ) := do
  let p ← getPoint data (start + k)
  .ok (acc.1 + p.x, acc.2 + p.y)

/-- One step of the max-area scan over the selection bucket: computes the
triangle area of (`pa`, candidate, average point) and keeps the candidate iff
its area strictly exceeds the running maximum. -/
def selectStep (data : List DataPoint) (pa : DataPoint) (avg_x avg_y : ℚ)
    (range_offs : Nat) (acc : ℚ × Nat) (k : Nat) : M (ℚ × Nat) := do
  let p ← getPoint data (range_offs + k)
  let area := abs ((pa.x - avg_x) * (p.y - pa.y) -
      (pa.x - p.x) * (avg_y - pa.y)) * (1 / 2 : ℚ)
  if acc.1 < area then .ok (area, range_offs + k) else .ok acc

/-- The averaging bucket of iteration `i`: index range
`[floor((i+1)*every)+1, min(floor((i+2)*every)+1, n))`, its point average. -/
def avgOf (data : List DataPoint) (every : ℚ) (i : Nat) : M (ℚ × ℚ) := do
  let s1 ← castToUsize ((i + 1 : ℚ) * every)
  let avg_range_start := s1 + 1
  let e1 ← castToUsize ((i + 2 : ℚ) * every)
  let end0 := e1 + 1
  let avg_range_end := if data.length ≤ end0 then data.length else end0
  let len ← usizeSub avg_range_end avg_range_start
  let s ← (List.range len).foldlM (avgStep data avg_range_start) ((0 : ℚ), (0 : ℚ))
  .ok (s.1 / (len : ℚ), s.2 / (len : ℚ))

/-- The selection bucket of iteration `i`: index range
`[floor(i*every)+1, floor((i+1)*every)+1)`; returns the index of the point of
maximal triangle area with `data[a]` and the average point (initial running
maximum `-1`, initial candidate `range_offs`). -/
def selectOf (data : List DataPoint) (every : ℚ) (i a : Nat) (avg : ℚ × ℚ) :
    M Nat := do
  let o1 ← castToUsize ((i : ℚ) * every)
  let range_offs := o1 + 1
  let t1 ← castToUsize ((i + 1 : ℚ) * every)
  let range_to := t1 + 1
  let pa ← getPoint data a
  let cnt ← usizeSub range_to range_offs
  let r ← (List.range cnt).foldlM
    (selectStep data pa avg.1 avg.2 range_offs) ((-1 : ℚ), range_offs)
  .ok r.2

/-- Body of one iteration of the main loop: average the next bucket, then pick
the max-area point of the current bucket. -/
def lttbBody (data : List DataPoint) (every : ℚ) (i a : Nat) : M Nat := do
  let avg ← avgOf data every i
  selectOf data every i a avg

/-- The main loop `for i in 0..threshold - 2`, with `r` the remaining number of
iterations, `i` the current iteration index, `a` the index of the previously
chosen point and `sampled` the output accumulated so far. -/
def lttbLoop (data : List DataPoint) (every : ℚ) :
    Nat → Nat → Nat → List DataPoint → M (List DataPoint)
  | 0, _, _, sampled => .ok sampled
  | r + 1, i, a, sampled => do
    let next_a ← lttbBody data every i a
    let chosen ← getPoint data next_a
    lttbLoop data every r (i + 1) next_a (sampled ++ [chosen])

/-- `lttb(data, threshold)`.  `.ok none` models `Ok(None)` ("nothing to do":
the caller keeps the input unchanged), `.ok (some out)` models
`Ok(Some(sampled))`, `.error .conversionError` models `Err(ConversionError)`
and `.error .panicked` models a Rust panic. -/
def lttb (data : List DataPoint) (threshold : Nat) :
    M (Option (List DataPoint)) :=
  if threshold ≥ data.length ∨ threshold = 0 then .ok none
  else do
    let nm2 ← usizeSub data.length 2
    let tm2 ← usizeSub threshold 2
    let every := (nm2 : ℚ) / (tm2 : ℚ)
    let first ← getPoint data 0
    let sampled ← lttbLoop data every tm2 0 0 [first]
    let lastp ← getPoint data (data.length - 1)
    .ok (some (sampled ++ [lastp]))

/-- The series the caller ends up with: on `Ok(None)` the input itself, on
`Ok(Some(out))` the downsampled series, on a failure nothing. -/
def resultSeries (data : List DataPoint) :
    M (Option (List DataPoint)) → Option (List DataPoint)
  | .ok none => some data
  | .ok (some out) => some out
  | .error _ => none

/-- Mirrors the control flow of lines 97–105 of the source: once the
short-circuit guard falls through, the ratio `every` is computed
unconditionally; reports whether that division's denominator `threshold - 2`
is zero when it is evaluated.  (`threshold == 1` panics at the `usize`
subtraction before the division, so the denominator is zero exactly when
`threshold == 2`.) -/
def everyDenomZero (data : List DataPoint) (threshold : Nat) : Bool :=
  if threshold ≥ data.length ∨ threshold = 0 then false
  else threshold == 2

/-- Pure counterpart of `avgStep`, used once every access is known in bounds. -/
def avgStepP (data : List DataPoint) (start : Nat) (acc : ℚ × ℚ) (k : Nat) :
    ℚ × ℚ :=
  let p := data.getD (start + k) dflt
  (acc.1 + p.x, acc.2 + p.y)

/-- Pure counterpart of `selectStep`. -/
def selectStepP (data : List DataPoint) (pa : DataPoint) (avg_x avg_y : ℚ)
    (range_offs : Nat) (acc : ℚ × Nat) (k : Nat) : ℚ × Nat :=
  let p := data.getD (range_offs + k) dflt
  let area := abs ((pa.x - avg_x) * (p.y - pa.y) -
      (pa.x - p.x) * (avg_y - pa.y)) * (1 / 2 : ℚ)
  if acc.1 < area then (area, range_offs + k) else acc

/-- The triangle area computed for the candidate at offset `k` of the
selection bucket, exactly as in the source's inner loop. -/
def areaP (data : List DataPoint) (pa : DataPoint) (avg_x avg_y : ℚ)
    (range_offs k : Nat) : ℚ :=
  abs ((pa.x - avg_x) * ((data.getD (range_offs + k) dflt).y - pa.y) -
      (pa.x - (data.getD (range_offs + k) dflt).x) * (avg_y - pa.y)) *
    (1 / 2 : ℚ)

/-- Pure counterpart of `avgOf`. -/
def avgOfP (data : List DataPoint) (every : ℚ) (i : Nat) : ℚ × ℚ :=
  let avg_range_start := ⌊(i + 1 : ℚ) * every⌋₊ + 1
  let end0 := ⌊(i + 2 : ℚ) * every⌋₊ + 1
  let avg_range_end := if data.length ≤ end0 then data.length else end0
  let len := avg_range_end - avg_range_start
  let s := (List.range len).foldl (avgStepP data avg_range_start) ((0 : ℚ), (0 : ℚ))
  (s.1 / (len : ℚ), s.2 / (len : ℚ))

/-- Pure counterpart of `selectOf`. -/
def selectOfP (data : List DataPoint) (every : ℚ) (i a : Nat) (avg : ℚ × ℚ) :
    Nat :=
  let range_offs := ⌊(i : ℚ) * every⌋₊ + 1
  let range_to := ⌊(i + 1 : ℚ) * every⌋₊ + 1
  let pa := data.getD a dflt
  ((List.range (range_to - range_offs)).foldl
    (selectStepP data pa avg.1 avg.2 range_offs) ((-1 : ℚ), range_offs)).2

/-- The index chosen by iteration `i` when the previous anchor is `a`
(pure counterpart of `lttbBody`). -/
def stepChoice (data : List DataPoint) (every : ℚ) (i a : Nat) : Nat :=
  selectOfP data every i a (avgOfP data every i)

/-- `floor(k * every)` in ℕ form: with `every = (n-2)/(t-2)` exact rational
arithmetic makes it the integer division `k * (n-2) / (t-2)`. -/
def bucketBound (n t k : Nat) : Nat := k * (n - 2) / (t - 2)

theorem ok_bind {α β : Type} (a : α) (f : α → M β) :
    (Except.ok a : M α) >>= f = f a := rfl

theorem error_bind {α β : Type} (e : Fail) (f : α → M β) :
    (Except.error e : M α) >>= f = Except.error e := rfl

theorem natFloor_mul_every (N D k : Nat) :
    ⌊(k : ℚ) * ((N : ℚ) / (D : ℚ))⌋₊ = k * N / D := by
  rw [mul_div_assoc', show ((k : ℚ) * N) = ((k * N : ℕ) : ℚ) by push_cast; ring]
  exact Rat.natFloor_natCast_div_natCast (k * N) D

theorem castToUsize_every (N D k : Nat) :
    castToUsize ((k : ℚ) * ((N : ℚ) / (D : ℚ))) = .ok (k * N / D) := by
  rw [castToUsize, if_neg (not_lt.mpr (by positivity)), natFloor_mul_every]

theorem cast_add_one (i : Nat) : ((i : ℚ) + 1) = ((i + 1 : Nat) : ℚ) := by
  push_cast; ring

theorem cast_add_two (i : Nat) : ((i : ℚ) + 2) = ((i + 2 : Nat) : ℚ) := by
  push_cast; ring

theorem bucketBound_mono (n t : Nat) {k k' : Nat} (h : k ≤ k') :
    bucketBound n t k ≤ bucketBound n t k' :=
  Nat.div_le_div_right (Nat.mul_le_mul_right _ h)

theorem bucketBound_strict {n t : Nat} (hDN : t - 2 ≤ n - 2) (hD : 0 < t - 2)
    (k : Nat) : bucketBound n t k + 1 ≤ bucketBound n t (k + 1) := by
  have h1 : (k * (n - 2) + (t - 2)) / (t - 2) = k * (n - 2) / (t - 2) + 1 :=
    Nat.add_div_right _ hD
  have h2 : k * (n - 2) + (t - 2) ≤ (k + 1) * (n - 2) := by
    rw [add_mul, one_mul]
    exact Nat.add_le_add_left hDN _
  calc bucketBound n t k + 1 = (k * (n - 2) + (t - 2)) / (t - 2) := h1.symm
    _ ≤ (k + 1) * (n - 2) / (t - 2) := Nat.div_le_div_right h2
    _ = bucketBound n t (k + 1) := rfl

theorem bucketBound_le {n t : Nat} (hD : 0 < t - 2) {k : Nat} (hk : k ≤ t - 2) :
    bucketBound n t k ≤ n - 2 := by
  calc bucketBound n t k ≤ bucketBound n t (t - 2) := bucketBound_mono n t hk
    _ = n - 2 := Nat.mul_div_cancel_left _ hD

theorem foldlM_avg_ok (data : List DataPoint) (start : Nat) :
    ∀ (l : List Nat) (acc : ℚ × ℚ), (∀ k ∈ l, start + k < data.length) →
      l.foldlM (avgStep data start) acc = .ok (l.foldl (avgStepP data start) acc)
  | [], acc, _ => rfl
  | a :: l, acc, h => by
    rw [List.foldlM_cons, List.foldl_cons]
    have ha : avgStep data start acc a = .ok (avgStepP data start acc a) := by
      rw [avgStep, avgStepP, getPoint, if_pos (h a (List.mem_cons_self a l))]
      rfl
    rw [ha, ok_bind]
    exact foldlM_avg_ok data start l _ fun k hk => h k (List.mem_cons_of_mem a hk)

theorem foldlM_select_ok (data : List DataPoint) (pa : DataPoint)
    (avg_x avg_y : ℚ) (range_offs : Nat) :
    ∀ (l : List Nat) (acc : ℚ × Nat), (∀ k ∈ l, range_offs + k < data.length) →
      l.foldlM (selectStep data pa avg_x avg_y range_offs) acc =
        .ok (l.foldl (selectStepP data pa avg_x avg_y range_offs) acc)
  | [], acc, _ => rfl
  | a :: l, acc, h => by
    rw [List.foldlM_cons, List.foldl_cons]
    have ha : selectStep data pa avg_x avg_y range_offs acc a =
        .ok (selectStepP data pa avg_x avg_y range_offs acc a) := by
      simp only [selectStep, selectStepP, getPoint,
        if_pos (h a (List.mem_cons_self a l)), ok_bind]
      split <;> rfl
    rw [ha, ok_bind]
    exact foldlM_select_ok data pa avg_x avg_y range_offs l _
      fun k hk => h k (List.mem_cons_of_mem a hk)

theorem avgOf_ok (data : List DataPoint) (every : ℚ) (i : Nat)
    (h0 : 0 ≤ every)
    (hs : ⌊(i + 1 : ℚ) * every⌋₊ + 1 ≤ data.length)
    (hm : ⌊(i + 1 : ℚ) * every⌋₊ ≤ ⌊(i + 2 : ℚ) * every⌋₊) :
    avgOf data every i = .ok (avgOfP data every i) := by
  have hc1 : castToUsize ((i + 1 : ℚ) * every) = .ok ⌊(i + 1 : ℚ) * every⌋₊ := by
    rw [castToUsize, if_neg (not_lt.mpr (mul_nonneg (by positivity) h0))]
  have hc2 : castToUsize ((i + 2 : ℚ) * every) = .ok ⌊(i + 2 : ℚ) * every⌋₊ := by
    rw [castToUsize, if_neg (not_lt.mpr (mul_nonneg (by positivity) h0))]
  simp only [avgOf, hc1, hc2, ok_bind]
  have hse : ⌊(i + 1 : ℚ) * every⌋₊ + 1 ≤
      (if data.length ≤ ⌊(i + 2 : ℚ) * every⌋₊ + 1 then data.length
       else ⌊(i + 2 : ℚ) * every⌋₊ + 1) := by
    split
    · exact hs
    · exact Nat.add_le_add_right hm 1
  have hen : (if data.length ≤ ⌊(i + 2 : ℚ) * every⌋₊ + 1 then data.length
      else ⌊(i + 2 : ℚ) * every⌋₊ + 1) ≤ data.length := by
    split
    · exact le_rfl
    · omega
  rw [usizeSub, if_pos hse]
  simp only [ok_bind]
  rw [foldlM_avg_ok data _ _ _ (fun k hk => by
    have := List.mem_range.mp hk
    omega)]
  simp only [ok_bind, avgOfP]

theorem selectOf_ok (data : List DataPoint) (every : ℚ) (i a : Nat)
    (avg : ℚ × ℚ) (h0 : 0 ≤ every) (ha : a < data.length)
    (hto : ⌊(i + 1 : ℚ) * every⌋₊ + 1 ≤ data.length)
    (hm : ⌊(i : ℚ) * every⌋₊ ≤ ⌊(i + 1 : ℚ) * every⌋₊) :
    selectOf data every i a avg = .ok (selectOfP data every i a avg) := by
  have hc0 : castToUsize ((i : ℚ) * every) = .ok ⌊(i : ℚ) * every⌋₊ := by
    rw [castToUsize, if_neg (not_lt.mpr (mul_nonneg (by positivity) h0))]
  have hc1 : castToUsize ((i + 1 : ℚ) * every) = .ok ⌊(i + 1 : ℚ) * every⌋₊ := by
    rw [castToUsize, if_neg (not_lt.mpr (mul_nonneg (by positivity) h0))]
  simp only [selectOf, hc0, hc1, ok_bind, getPoint, if_pos ha]
  rw [usizeSub, if_pos (Nat.add_le_add_right hm 1)]
  simp only [ok_bind]
  rw [foldlM_select_ok data _ _ _ _ _ _ (fun k hk => by
    have := List.mem_range.mp hk
    omega)]
  simp only [ok_bind, selectOfP]

theorem lttbBody_ok (data : List DataPoint) (every : ℚ) (i a : Nat)
    (h0 : 0 ≤ every) (ha : a < data.length)
    (hs : ⌊(i + 1 : ℚ) * every⌋₊ + 1 ≤ data.length)
    (hm12 : ⌊(i + 1 : ℚ) * every⌋₊ ≤ ⌊(i + 2 : ℚ) * every⌋₊)
    (hm01 : ⌊(i : ℚ) * every⌋₊ ≤ ⌊(i + 1 : ℚ) * every⌋₊) :
    lttbBody data every i a = .ok (stepChoice data every i a) := by
  rw [lttbBody, avgOf_ok data every i h0 hs hm12, ok_bind,
    selectOf_ok data every i a _ h0 ha hs hm01, stepChoice]

theorem foldl_select_snd (data : List DataPoint) (pa : DataPoint)
    (avg_x avg_y : ℚ) (range_offs : Nat) :
    ∀ (l : List Nat) (acc : ℚ × Nat),
      (l.foldl (selectStepP data pa avg_x avg_y range_offs) acc).2 = acc.2 ∨
      ∃ k ∈ l, (l.foldl (selectStepP data pa avg_x avg_y range_offs) acc).2 =
        range_offs + k
  | [], acc => Or.inl rfl
  | a :: l, acc => by
    rw [List.foldl_cons]
    rcases foldl_select_snd data pa avg_x avg_y range_offs l
        (selectStepP data pa avg_x avg_y range_offs acc a) with h | ⟨k, hk, h⟩
    · rw [h]
      simp only [selectStepP]
      split
      · exact Or.inr ⟨a, List.mem_cons_self a l, rfl⟩
      · exact Or.inl rfl
    · exact Or.inr ⟨k, List.mem_cons_of_mem a hk, h⟩

theorem selectOfP_lb (data : List DataPoint) (every : ℚ) (i a : Nat)
    (avg : ℚ × ℚ) :
    ⌊(i : ℚ) * every⌋₊ + 1 ≤ selectOfP data every i a avg := by
  rw [selectOfP]
  rcases foldl_select_snd data (data.getD a dflt) avg.1 avg.2
      (⌊(i : ℚ) * every⌋₊ + 1)
      (List.range ((⌊(i + 1 : ℚ) * every⌋₊ + 1) - (⌊(i : ℚ) * every⌋₊ + 1)))
      ((-1 : ℚ), ⌊(i : ℚ) * every⌋₊ + 1) with h | ⟨k, _, h⟩
  · rw [h]
  · rw [h]; omega

theorem selectOfP_ub (data : List DataPoint) (every : ℚ) (i a : Nat)
    (avg : ℚ × ℚ)
    (hm : ⌊(i : ℚ) * every⌋₊ + 1 ≤ ⌊(i + 1 : ℚ) * every⌋₊) :
    selectOfP data every i a avg ≤ ⌊(i + 1 : ℚ) * every⌋₊ := by
  rw [selectOfP]
  rcases foldl_select_snd data (data.getD a dflt) avg.1 avg.2
      (⌊(i : ℚ) * every⌋₊ + 1)
      (List.range ((⌊(i + 1 : ℚ) * every⌋₊ + 1) - (⌊(i : ℚ) * every⌋₊ + 1)))
      ((-1 : ℚ), ⌊(i : ℚ) * every⌋₊ + 1) with h | ⟨k, hk, h⟩
  · rw [h]; exact hm
  · rw [h]
    have := List.mem_range.mp hk
    omega

theorem natFloor_every0 (n t i : Nat) :
    ⌊(i : ℚ) * (((n - 2 : ℕ) : ℚ) / ((t - 2 : ℕ) : ℚ))⌋₊ = bucketBound n t i :=
  natFloor_mul_every (n - 2) (t - 2) i

theorem natFloor_every1 (n t i : Nat) :
    ⌊((i : ℚ) + 1) * (((n - 2 : ℕ) : ℚ) / ((t - 2 : ℕ) : ℚ))⌋₊ =
      bucketBound n t (i + 1) := by
  rw [cast_add_one]
  exact natFloor_mul_every (n - 2) (t - 2) (i + 1)

theorem natFloor_every2 (n t i : Nat) :
    ⌊((i : ℚ) + 2) * (((n - 2 : ℕ) : ℚ) / ((t - 2 : ℕ) : ℚ))⌋₊ =
      bucketBound n t (i + 2) := by
  rw [cast_add_two]
  exact natFloor_mul_every (n - 2) (t - 2) (i + 2)

theorem every_nonneg (n t : Nat) :
    (0 : ℚ) ≤ ((n - 2 : ℕ) : ℚ) / ((t - 2 : ℕ) : ℚ) := by positivity

theorem lttbLoop_ok (data : List DataPoint) (t : Nat) (h3 : 3 ≤ t)
    (hlt : t < data.length) :
    ∀ (r i a : Nat) (sampled : List DataPoint),
      i + r = t - 2 → a ≤ bucketBound data.length t i →
      ∃ js : List Nat,
        lttbLoop data (((data.length - 2 : ℕ) : ℚ) / ((t - 2 : ℕ) : ℚ))
            r i a sampled =
          .ok (sampled ++ js.map (fun j => data.getD j dflt)) ∧
        js.length = r ∧ List.Chain (· < ·) a js ∧
        ∀ j ∈ js, j ≤ data.length - 2 := by
  intro r
  induction r with
  | zero =>
    intro i a sampled _ _
    exact ⟨[], by simp [lttbLoop], rfl, List.Chain.nil, by simp⟩
  | succ r ih =>
    intro i a sampled hi ha
    have hD : 0 < t - 2 := by omega
    have hDN : t - 2 ≤ data.length - 2 := by omega
    have hn4 : 4 ≤ data.length := by omega
    have hi_lt : i + 1 ≤ t - 2 := by omega
    have hbb1n : bucketBound data.length t (i + 1) ≤ data.length - 2 :=
      bucketBound_le hD hi_lt
    have ha_lt : a < data.length :=
      lt_of_le_of_lt
        (le_trans ha (bucketBound_le hD (by omega)))
        (by omega)
    have hs' : ⌊((i : ℚ) + 1) *
        (((data.length - 2 : ℕ) : ℚ) / ((t - 2 : ℕ) : ℚ))⌋₊ + 1 ≤
        data.length := by
      rw [natFloor_every1]
      omega
    have hm12' : ⌊((i : ℚ) + 1) *
        (((data.length - 2 : ℕ) : ℚ) / ((t - 2 : ℕ) : ℚ))⌋₊ ≤
        ⌊((i : ℚ) + 2) * (((data.length - 2 : ℕ) : ℚ) / ((t - 2 : ℕ) : ℚ))⌋₊ := by
      rw [natFloor_every1, natFloor_every2]
      exact bucketBound_mono _ _ (by omega)
    have hm01' : ⌊(i : ℚ) *
        (((data.length - 2 : ℕ) : ℚ) / ((t - 2 : ℕ) : ℚ))⌋₊ ≤
        ⌊((i : ℚ) + 1) * (((data.length - 2 : ℕ) : ℚ) / ((t - 2 : ℕ) : ℚ))⌋₊ := by
      rw [natFloor_every0, natFloor_every1]
      exact bucketBound_mono _ _ (by omega)
    have hbody := lttbBody_ok data
      (((data.length - 2 : ℕ) : ℚ) / ((t - 2 : ℕ) : ℚ)) i a
      (every_nonneg data.length t) ha_lt hs' hm12' hm01'
    have hc_lb : bucketBound data.length t i + 1 ≤
        stepChoice data (((data.length - 2 : ℕ) : ℚ) / ((t - 2 : ℕ) : ℚ)) i a := by
      have := selectOfP_lb data
        (((data.length - 2 : ℕ) : ℚ) / ((t - 2 : ℕ) : ℚ)) i a
        (avgOfP data (((data.length - 2 : ℕ) : ℚ) / ((t - 2 : ℕ) : ℚ)) i)
      rw [natFloor_every0] at this
      exact this
    have hc_ub :
        stepChoice data (((data.length - 2 : ℕ) : ℚ) / ((t - 2 : ℕ) : ℚ)) i a ≤
        bucketBound data.length t (i + 1) := by
      have := selectOfP_ub data
        (((data.length - 2 : ℕ) : ℚ) / ((t - 2 : ℕ) : ℚ)) i a
        (avgOfP data (((data.length - 2 : ℕ) : ℚ) / ((t - 2 : ℕ) : ℚ)) i)
        (by rw [natFloor_every0, natFloor_every1]
            exact bucketBound_strict hDN hD i)
      rw [natFloor_every1] at this
      exact this
    have hc_lt : stepChoice data
        (((data.length - 2 : ℕ) : ℚ) / ((t - 2 : ℕ) : ℚ)) i a < data.length := by
      omega
    obtain ⟨js', hrun, hlen, hchain, hbnd⟩ := ih (i + 1)
      (stepChoice data (((data.length - 2 : ℕ) : ℚ) / ((t - 2 : ℕ) : ℚ)) i a)
      (sampled ++ [data.getD
        (stepChoice data (((data.length - 2 : ℕ) : ℚ) / ((t - 2 : ℕ) : ℚ)) i a)
        dflt])
      (by omega) hc_ub
    refine ⟨stepChoice data
        (((data.length - 2 : ℕ) : ℚ) / ((t - 2 : ℕ) : ℚ)) i a :: js',
      ?_, by simp [hlen], ?_, ?_⟩
    · rw [lttbLoop]
      simp only [hbody, ok_bind, getPoint, if_pos hc_lt]
      rw [hrun]
      simp
    · exact List.Chain.cons (by omega) hchain
    · intro j hj
      rcases List.mem_cons.mp hj with rfl | hj'
      · omega
      · exact hbnd j hj'

theorem lttb_noop (data : List DataPoint) (t : Nat)
    (h : t ≥ data.length ∨ t = 0) : lttb data t = .ok none := by
  rw [lttb, if_pos h]

theorem lttb_one (data : List DataPoint) (h : 2 ≤ data.length) :
    lttb data 1 = .error .panicked := by
  have hg : ¬(1 ≥ data.length ∨ 1 = 0) := by omega
  have h1 : usizeSub data.length 2 = .ok (data.length - 2) := by
    rw [usizeSub, if_pos h]
  have h2 : usizeSub 1 2 = (.error .panicked : M Nat) := by
    rw [usizeSub, if_neg (by omega)]
  rw [lttb, if_neg hg]
  simp only [h1, ok_bind, h2, error_bind]

theorem lttb_two (data : List DataPoint) (h : 3 ≤ data.length) :
    lttb data 2 =
      .ok (some [data.getD 0 dflt, data.getD (data.length - 1) dflt]) := by
  have hg : ¬(2 ≥ data.length ∨ 2 = 0) := by omega
  have h1 : usizeSub data.length 2 = .ok (data.length - 2) := by
    rw [usizeSub, if_pos (by omega)]
  have h2 : usizeSub 2 2 = (.ok 0 : M Nat) := by
    rw [usizeSub, if_pos (by omega)]
  rw [lttb, if_neg hg]
  simp only [h1, ok_bind, h2, getPoint,
    if_pos (show 0 < data.length by omega),
    if_pos (show data.length - 1 < data.length by omega), lttbLoop]
  simp

theorem lttb_valid (data : List DataPoint) (t : Nat) (h3 : 3 ≤ t)
    (hlt : t < data.length) :
    ∃ js : List Nat,
      lttb data t = .ok (some (data.getD 0 dflt ::
        (js.map (fun j => data.getD j dflt) ++
          [data.getD (data.length - 1) dflt]))) ∧
      js.length = t - 2 ∧ List.Chain (· < ·) 0 js ∧
      ∀ j ∈ js, j ≤ data.length - 2 := by
  have hg : ¬(t ≥ data.length ∨ t = 0) := by omega
  have h1 : usizeSub data.length 2 = .ok (data.length - 2) := by
    rw [usizeSub, if_pos (by omega)]
  have h2 : usizeSub t 2 = (.ok (t - 2) : M Nat) := by
    rw [usizeSub, if_pos (by omega)]
  obtain ⟨js, hrun, hlen, hchain, hbnd⟩ := lttbLoop_ok data t h3 hlt
    (t - 2) 0 0 [data.getD 0 dflt] (by omega) (by simp [bucketBound])
  refine ⟨js, ?_, hlen, hchain, hbnd⟩
  rw [lttb, if_neg hg]
  simp only [h1, ok_bind, h2, getPoint,
    if_pos (show 0 < data.length by omega),
    if_pos (show data.length - 1 < data.length by omega), hrun]
  simp

theorem lttb_sampled_inv (data : List DataPoint) (t : Nat)
    (out : List DataPoint) (h : lttb data t = .ok (some out)) :
    2 ≤ t ∧ t < data.length := by
  by_cases hg : t ≥ data.length ∨ t = 0
  · rw [lttb, if_pos hg] at h
    exact absurd h (by simp)
  · push_neg at hg
    rcases Nat.lt_or_ge t 2 with h2 | h2
    · have ht1 : t = 1 := by omega
      subst ht1
      rw [lttb_one data (by omega)] at h
      exact absurd h (by simp)
    · exact ⟨h2, by omega⟩

theorem lttb_concrete_eval :
    lttb [⟨0, 10⟩, ⟨1, 12⟩, ⟨2, 8⟩, ⟨3, 10⟩, ⟨4, 12⟩] 3 =
      .ok (some [⟨0, 10⟩, ⟨2, 8⟩, ⟨4, 12⟩]) := by
  rw [lttb]
  norm_num [lttbLoop, lttbBody, avgOf, selectOf, getPoint, usizeSub,
    castToUsize, avgStep, selectStep, ok_bind, error_bind,
    show List.range 1 = [0] from rfl, show List.range 3 = [0, 1, 2] from rfl,
    List.foldlM, abs_eq_max_neg, max_def, dflt]

theorem map_getD_sublist_drop (data : List DataPoint) :
    ∀ (idxs : List Nat) (k : Nat), List.Pairwise (· < ·) idxs →
      (∀ j ∈ idxs, k ≤ j ∧ j < data.length) →
      List.Sublist (idxs.map (fun j => data.getD j dflt)) (data.drop k)
  | [], _, _, _ => List.nil_sublist _
  | j :: rest, k, hpw, hb => by
    obtain ⟨hkj, hjn⟩ := hb j (List.mem_cons_self _ _)
    obtain ⟨hlt_rest, hpw_rest⟩ := List.pairwise_cons.mp hpw
    have ih := map_getD_sublist_drop data rest (j + 1) hpw_rest
      (fun x hx => ⟨hlt_rest x hx, (hb x (List.mem_cons_of_mem j hx)).2⟩)
    have hdropj : data.drop j = data.getD j dflt :: data.drop (j + 1) := by
      rw [List.drop_eq_getElem_cons hjn, List.getD_eq_getElem data dflt hjn]
    have step1 : List.Sublist ((j :: rest).map (fun j => data.getD j dflt))
        (data.drop j) := by
      rw [List.map_cons, hdropj]
      exact List.Sublist.cons₂ _ ih
    have step2 : List.Sublist (data.drop j) (data.drop k) := by
      have hj : data.drop j = List.drop (j - k) (data.drop k) := by
        rw [List.drop_drop]
        congr 1
        omega
      rw [hj]
      exact List.drop_sublist _ _
    exact step1.trans step2

theorem getD_concat_last (l : List DataPoint) (x : DataPoint) :
    (l ++ [x]).getD ((l ++ [x]).length - 1) dflt = x := by
  have hlen : (l ++ [x]).length - 1 = l.length := by simp
  rw [hlen, List.getD_append_right l [x] dflt l.length le_rfl]
  simp

theorem map_getD_sublist (data : List DataPoint) (idxs : List Nat)
    (hpw : List.Pairwise (· < ·) idxs)
    (hb : ∀ j ∈ idxs, j < data.length) :
    List.Sublist (idxs.map (fun j => data.getD j dflt)) data := by
  have := map_getD_sublist_drop data idxs 0 hpw
    (fun j hj => ⟨Nat.zero_le j, hb j hj⟩)
  simpa using this

/-- C1: for every series and every threshold with `threshold ≥ series.length`
or `threshold = 0`, `lttb` short-circuits with the non-error outcome
`Ok(None)`, under which the caller keeps the input series unchanged (same
points, same order, same length). -/
theorem C1_short_circuit_identity (data : List DataPoint) (t : Nat)
    (h : t ≥ data.length ∨ t = 0) :
    resultSeries data (lttb data t) = some data := by
  rw [lttb_noop data t h]
  rfl

/-- Witness for C1: a 5-point series with threshold 10 comes back unchanged. -/
theorem C1_short_circuit_identity_witness :
    ((10 ≥ ([⟨0, 0⟩, ⟨1, 1⟩, ⟨2, 2⟩, ⟨3, 3⟩, ⟨4, 4⟩] : List DataPoint).length ∨
        (10 : Nat) = 0) ∧
      resultSeries [⟨0, 0⟩, ⟨1, 1⟩, ⟨2, 2⟩, ⟨3, 3⟩, ⟨4, 4⟩]
        (lttb [⟨0, 0⟩, ⟨1, 1⟩, ⟨2, 2⟩, ⟨3, 3⟩, ⟨4, 4⟩] 10) =
        some [⟨0, 0⟩, ⟨1, 1⟩, ⟨2, 2⟩, ⟨3, 3⟩, ⟨4, 4⟩]) :=
  ⟨Or.inl (by decide),
    C1_short_circuit_identity [⟨0, 0⟩, ⟨1, 1⟩, ⟨2, 2⟩, ⟨3, 3⟩, ⟨4, 4⟩] 10
      (Or.inl (by decide))⟩

/-- C2 counterexample: a 2-point series with threshold 1 is NOT treated as
"no downsampling": the short-circuit guard (`1 ≥ 2` is false, `1 = 0` is
false) lets execution reach the `usize` subtraction `threshold - 2`, which
underflows — the model's panic outcome — so the input is not returned
unchanged and the claim fails as stated. -/
theorem C2_counterexample :
    lttb [⟨0, 0⟩, ⟨1, 1⟩] 1 = .error .panicked ∧
    resultSeries [⟨0, 0⟩, ⟨1, 1⟩] (lttb [⟨0, 0⟩, ⟨1, 1⟩] 1) ≠
      some [⟨0, 0⟩, ⟨1, 1⟩] := by
  have h := lttb_one [⟨0, 0⟩, ⟨1, 1⟩] (by decide)
  refine ⟨h, ?_⟩
  rw [h]
  simp [resultSeries]

/-- C2 (amended): for every series of length at least 2, threshold 1 is not
caught by the short-circuit; the call evaluates `threshold - 2`, which
underflows `usize`, so (in a debug build) the call panics instead of
returning the input unchanged. -/
theorem C2_threshold_one_underflows (data : List DataPoint)
    (h : 2 ≤ data.length) : lttb data 1 = .error .panicked :=
  lttb_one data h

/-- Witness for the amended C2 at a concrete 3-point series. -/
theorem C2_threshold_one_underflows_witness :
    2 ≤ ([⟨0, 0⟩, ⟨5, 5⟩, ⟨9, 9⟩] : List DataPoint).length ∧
    lttb [⟨0, 0⟩, ⟨5, 5⟩, ⟨9, 9⟩] 1 = .error .panicked :=
  ⟨by decide, C2_threshold_one_underflows [⟨0, 0⟩, ⟨5, 5⟩, ⟨9, 9⟩] (by decide)⟩

/-- C3 counterexample: on a 3-point series with threshold 2, `lttb` does not
report a failure — it succeeds with `[first, last]` — yet the division whose
denominator `threshold - 2` is zero IS evaluated (`everyDenomZero` is true):
the zero denominator is not explicitly guarded, contrary to the claim. -/
theorem C3_counterexample :
    lttb [⟨0, 0⟩, ⟨1, 5⟩, ⟨2, 0⟩] 2 = .ok (some [⟨0, 0⟩, ⟨2, 0⟩]) ∧
    everyDenomZero [⟨0, 0⟩, ⟨1, 5⟩, ⟨2, 0⟩] 2 = true := by
  refine ⟨?_, by decide⟩
  have h := lttb_two [⟨0, 0⟩, ⟨1, 5⟩, ⟨2, 0⟩] (by decide)
  simpa using h

/-- C3 (amended): for every series of length at least 3 and threshold 2,
`lttb` does not report a failure: it returns exactly `[first, last]`.  The
division by `threshold - 2 = 0` is nevertheless evaluated (unguarded); it is
harmless only because the intermediate loop runs zero times so `every` is
never used. -/
theorem C3_threshold_two (data : List DataPoint) (h : 3 ≤ data.length) :
    lttb data 2 =
      .ok (some [data.getD 0 dflt, data.getD (data.length - 1) dflt]) ∧
    everyDenomZero data 2 = true := by
  refine ⟨lttb_two data h, ?_⟩
  rw [everyDenomZero, if_neg (by omega)]
  rfl

/-- Witness for the amended C3 at a concrete 4-point series. -/
theorem C3_threshold_two_witness :
    3 ≤ ([⟨0, 0⟩, ⟨1, 7⟩, ⟨2, 1⟩, ⟨3, 4⟩] : List DataPoint).length ∧
    (lttb [⟨0, 0⟩, ⟨1, 7⟩, ⟨2, 1⟩, ⟨3, 4⟩] 2 =
      .ok (some [([⟨0, 0⟩, ⟨1, 7⟩, ⟨2, 1⟩, ⟨3, 4⟩] :
          List DataPoint).getD 0 dflt,
        ([⟨0, 0⟩, ⟨1, 7⟩, ⟨2, 1⟩, ⟨3, 4⟩] : List DataPoint).getD
          (([⟨0, 0⟩, ⟨1, 7⟩, ⟨2, 1⟩, ⟨3, 4⟩] : List DataPoint).length - 1)
          dflt]) ∧
      everyDenomZero [⟨0, 0⟩, ⟨1, 7⟩, ⟨2, 1⟩, ⟨3, 4⟩] 2 = true) :=
  ⟨by decide, C3_threshold_two [⟨0, 0⟩, ⟨1, 7⟩, ⟨2, 1⟩, ⟨3, 4⟩] (by decide)⟩

/-- C4: for `2 ≤ threshold < series.length` (with `series.length ≥ 2`), when
`lttb` succeeds with a downsampled output, that output has length exactly
`threshold`. -/
theorem C4_output_length (data : List DataPoint) (t : Nat)
    (out : List DataPoint) (h2 : 2 ≤ t) (hlt : t < data.length)
    (_hn : 2 ≤ data.length) (h : lttb data t = .ok (some out)) :
    out.length = t := by
  rcases Nat.lt_or_ge t 3 with h23 | h3
  · have ht2 : t = 2 := by omega
    subst ht2
    rw [lttb_two data (by omega)] at h
    simp only [Except.ok.injEq, Option.some.injEq] at h
    rw [← h]
    rfl
  · obtain ⟨js, hrun, hlen, _, _⟩ := lttb_valid data t h3 hlt
    rw [hrun] at h
    simp only [Except.ok.injEq, Option.some.injEq] at h
    rw [← h]
    simp only [List.length_cons, List.length_append, List.length_map,
      List.length_nil, hlen]
    omega

/-- Witness for C4: the 5-point example with threshold 3 yields 3 points. -/
theorem C4_output_length_witness :
    (2 ≤ 3 ∧ 3 < ([⟨0, 10⟩, ⟨1, 12⟩, ⟨2, 8⟩, ⟨3, 10⟩, ⟨4, 12⟩] :
        List DataPoint).length) ∧
    ([⟨0, 10⟩, ⟨2, 8⟩, ⟨4, 12⟩] : List DataPoint).length = 3 :=
  ⟨⟨by decide, by decide⟩,
    C4_output_length [⟨0, 10⟩, ⟨1, 12⟩, ⟨2, 8⟩, ⟨3, 10⟩, ⟨4, 12⟩] 3
      [⟨0, 10⟩, ⟨2, 8⟩, ⟨4, 12⟩] (by decide) (by decide) (by decide)
      lttb_concrete_eval⟩

/-- C5: whenever downsampling takes place and `lttb` succeeds (outcome
`Ok(Some(out))`), the output's first point equals the input's first point and
the output's last point equals the input's last point. -/
theorem C5_endpoints (data : List DataPoint) (t : Nat) (out : List DataPoint)
    (h : lttb data t = .ok (some out)) :
    out ≠ [] ∧ out.getD 0 dflt = data.getD 0 dflt ∧
    out.getD (out.length - 1) dflt = data.getD (data.length - 1) dflt := by
  obtain ⟨h2, hlt⟩ := lttb_sampled_inv data t out h
  rcases Nat.lt_or_ge t 3 with h23 | h3
  · have ht2 : t = 2 := by omega
    subst ht2
    rw [lttb_two data (by omega)] at h
    simp only [Except.ok.injEq, Option.some.injEq] at h
    rw [← h]
    exact ⟨by simp, rfl, rfl⟩
  · obtain ⟨js, hrun, hlen, _, _⟩ := lttb_valid data t h3 hlt
    rw [hrun] at h
    simp only [Except.ok.injEq, Option.some.injEq] at h
    rw [← h]
    refine ⟨by simp, rfl, ?_⟩
    rw [show data.getD 0 dflt ::
        (List.map (fun j => data.getD j dflt) js ++
          [data.getD (data.length - 1) dflt]) =
      (data.getD 0 dflt :: List.map (fun j => data.getD j dflt) js) ++
        [data.getD (data.length - 1) dflt] from rfl]
    exact getD_concat_last _ _

/-- Witness for C5 at the concrete 5-point example. -/
theorem C5_endpoints_witness :
    ([⟨0, 10⟩, ⟨2, 8⟩, ⟨4, 12⟩] : List DataPoint) ≠ [] ∧
    ([⟨0, 10⟩, ⟨2, 8⟩, ⟨4, 12⟩] : List DataPoint).getD 0 dflt =
      ([⟨0, 10⟩, ⟨1, 12⟩, ⟨2, 8⟩, ⟨3, 10⟩, ⟨4, 12⟩] :
        List DataPoint).getD 0 dflt ∧
    ([⟨0, 10⟩, ⟨2, 8⟩, ⟨4, 12⟩] : List DataPoint).getD
        (([⟨0, 10⟩, ⟨2, 8⟩, ⟨4, 12⟩] : List DataPoint).length - 1) dflt =
      ([⟨0, 10⟩, ⟨1, 12⟩, ⟨2, 8⟩, ⟨3, 10⟩, ⟨4, 12⟩] : List DataPoint).getD
        (([⟨0, 10⟩, ⟨1, 12⟩, ⟨2, 8⟩, ⟨3, 10⟩, ⟨4, 12⟩] :
          List DataPoint).length - 1) dflt :=
  C5_endpoints [⟨0, 10⟩, ⟨1, 12⟩, ⟨2, 8⟩, ⟨3, 10⟩, ⟨4, 12⟩] 3
    [⟨0, 10⟩, ⟨2, 8⟩, ⟨4, 12⟩] lttb_concrete_eval

/-- C6: whenever downsampling takes place and `lttb` succeeds, the output is
the image of a strictly increasing list of in-bound input indices (so every
output point is value-equal to an input point and relative order is
preserved), and the output is a sublist (subsequence) of the input. -/
theorem C6_subsequence (data : List DataPoint) (t : Nat)
    (out : List DataPoint) (h : lttb data t = .ok (some out)) :
    ∃ idxs : List Nat,
      out = idxs.map (fun j => data.getD j dflt) ∧
      List.Pairwise (· < ·) idxs ∧ (∀ j ∈ idxs, j < data.length) ∧
      List.Sublist out data := by
  obtain ⟨h2, hlt⟩ := lttb_sampled_inv data t out h
  have hn3 : 3 ≤ data.length := by omega
  rcases Nat.lt_or_ge t 3 with h23 | h3
  · have ht2 : t = 2 := by omega
    subst ht2
    rw [lttb_two data hn3] at h
    simp only [Except.ok.injEq, Option.some.injEq] at h
    have hpw : List.Pairwise (· < ·) [0, data.length - 1] := by
      refine List.pairwise_cons.mpr ⟨?_, List.pairwise_singleton _ _⟩
      intro y hy
      simp only [List.mem_singleton] at hy
      subst hy
      omega
    have hbd : ∀ j ∈ [0, data.length - 1], j < data.length := by
      intro j hj
      rcases List.mem_cons.mp hj with rfl | hj'
      · omega
      · simp only [List.mem_singleton] at hj'
        subst hj'
        omega
    refine ⟨[0, data.length - 1], by rw [← h]; simp, hpw, hbd, ?_⟩
    rw [← h]
    have := map_getD_sublist data [0, data.length - 1] hpw hbd
    simpa using this
  · obtain ⟨js, hrun, hlen, hchain, hbnd⟩ := lttb_valid data t h3 hlt
    rw [hrun] at h
    simp only [Except.ok.injEq, Option.some.injEq] at h
    have hpw0 : List.Pairwise (· < ·) (0 :: js) :=
      List.chain_iff_pairwise.mp hchain
    have hpw : List.Pairwise (· < ·) ((0 :: js) ++ [data.length - 1]) := by
      rw [List.pairwise_append]
      refine ⟨hpw0, List.pairwise_singleton _ _, ?_⟩
      intro x hx y hy
      simp only [List.mem_singleton] at hy
      subst hy
      rcases List.mem_cons.mp hx with rfl | hx'
      · omega
      · have := hbnd x hx'
        omega
    have hbd : ∀ j ∈ (0 :: js) ++ [data.length - 1], j < data.length := by
      intro j hj
      rcases List.mem_append.mp hj with h1 | h1
      · rcases List.mem_cons.mp h1 with rfl | h1'
        · omega
        · have := hbnd j h1'
          omega
      · simp only [List.mem_singleton] at h1
        subst h1
        omega
    have hmap : out = ((0 :: js) ++ [data.length - 1]).map
        (fun j => data.getD j dflt) := by
      rw [← h]
      simp
    refine ⟨(0 :: js) ++ [data.length - 1], hmap, hpw, hbd, ?_⟩
    rw [hmap]
    exact map_getD_sublist data _ hpw hbd

/-- Witness for C6 at the concrete 5-point example. -/
theorem C6_subsequence_witness :
    ∃ idxs : List Nat,
      ([⟨0, 10⟩, ⟨2, 8⟩, ⟨4, 12⟩] : List DataPoint) =
        idxs.map (fun j =>
          ([⟨0, 10⟩, ⟨1, 12⟩, ⟨2, 8⟩, ⟨3, 10⟩, ⟨4, 12⟩] :
            List DataPoint).getD j dflt) ∧
      List.Pairwise (· < ·) idxs ∧
      (∀ j ∈ idxs, j < ([⟨0, 10⟩, ⟨1, 12⟩, ⟨2, 8⟩, ⟨3, 10⟩, ⟨4, 12⟩] :
        List DataPoint).length) ∧
      List.Sublist ([⟨0, 10⟩, ⟨2, 8⟩, ⟨4, 12⟩] : List DataPoint)
        ([⟨0, 10⟩, ⟨1, 12⟩, ⟨2, 8⟩, ⟨3, 10⟩, ⟨4, 12⟩] : List DataPoint) :=
  C6_subsequence [⟨0, 10⟩, ⟨1, 12⟩, ⟨2, 8⟩, ⟨3, 10⟩, ⟨4, 12⟩] 3
    [⟨0, 10⟩, ⟨2, 8⟩, ⟨4, 12⟩] lttb_concrete_eval

/-- C7 counterexample: it is not true for every input that `lttb` either
produces a full result or reports a conversion failure: for a 3-point series
with threshold 1 the call panics (usize underflow), which is neither. -/
theorem C7_counterexample :
    lttb [⟨0, 0⟩, ⟨1, 1⟩, ⟨2, 2⟩] 1 = .error .panicked :=
  lttb_one [⟨0, 0⟩, ⟨1, 1⟩, ⟨2, 2⟩] (by decide)

/-- C7 (amended): for every input with threshold ≠ 1 (the panicking
`threshold = 1 < length` case excluded), the call either short-circuits
(`Ok(None)`) or produces the full downsampled sequence of exactly `threshold`
points; in the exact-arithmetic model no conversion failure arises, and in no
case is a partially filled result returned. -/
theorem C7_no_partial (data : List DataPoint) (t : Nat) (ht : t ≠ 1) :
    lttb data t = .ok none ∨
    ∃ out, lttb data t = .ok (some out) ∧ out.length = t := by
  by_cases hg : t ≥ data.length ∨ t = 0
  · exact Or.inl (lttb_noop data t hg)
  · push_neg at hg
    right
    rcases Nat.lt_or_ge t 3 with h23 | h3
    · have ht2 : t = 2 := by omega
      subst ht2
      exact ⟨_, lttb_two data (by omega), rfl⟩
    · obtain ⟨js, hrun, hlen, _, _⟩ := lttb_valid data t h3 (by omega)
      refine ⟨_, hrun, ?_⟩
      simp only [List.length_cons, List.length_append, List.length_map,
        List.length_nil, hlen]
      omega

/-- Witness for the amended C7 at the concrete 5-point example, threshold 3. -/
theorem C7_no_partial_witness :
    (3 : Nat) ≠ 1 ∧
    (lttb [⟨0, 10⟩, ⟨1, 12⟩, ⟨2, 8⟩, ⟨3, 10⟩, ⟨4, 12⟩] 3 = .ok none ∨
      ∃ out, lttb [⟨0, 10⟩, ⟨1, 12⟩, ⟨2, 8⟩, ⟨3, 10⟩, ⟨4, 12⟩] 3 =
        .ok (some out) ∧ out.length = 3) :=
  ⟨by decide,
    C7_no_partial [⟨0, 10⟩, ⟨1, 12⟩, ⟨2, 8⟩, ⟨3, 10⟩, ⟨4, 12⟩] 3 (by decide)⟩

theorem getD_mem (data : List DataPoint) (i : Nat) (h : i < data.length) :
    data.getD i dflt ∈ data := by
  rw [List.getD_eq_getElem data dflt h]
  exact List.getElem_mem _

theorem selectStepP_eq (data : List DataPoint) (pa : DataPoint)
    (avg_x avg_y : ℚ) (range_offs : Nat) (acc : ℚ × Nat) (k : Nat) :
    selectStepP data pa avg_x avg_y range_offs acc k =
      if acc.1 < areaP data pa avg_x avg_y range_offs k
      then (areaP data pa avg_x avg_y range_offs k, range_offs + k)
      else acc := rfl

theorem foldl_select_keep (data : List DataPoint) (pa : DataPoint)
    (avg_x avg_y : ℚ) (range_offs : Nat) :
    ∀ (l : List Nat) (acc : ℚ × Nat),
      (∀ k ∈ l, areaP data pa avg_x avg_y range_offs k = 0) → 0 ≤ acc.1 →
      l.foldl (selectStepP data pa avg_x avg_y range_offs) acc = acc
  | [], _, _, _ => rfl
  | a :: l, acc, hz, hpos => by
    rw [List.foldl_cons, selectStepP_eq, hz a (List.mem_cons_self a l),
      if_neg (not_lt.mpr hpos)]
    exact foldl_select_keep data pa avg_x avg_y range_offs l acc
      (fun k hk => hz k (List.mem_cons_of_mem a hk)) hpos

theorem selectOfP_zero (data : List DataPoint) (every : ℚ) (i a : Nat)
    (avg : ℚ × ℚ)
    (hz : ∀ k ∈ List.range
        ((⌊(i + 1 : ℚ) * every⌋₊ + 1) - (⌊(i : ℚ) * every⌋₊ + 1)),
      areaP data (data.getD a dflt) avg.1 avg.2 (⌊(i : ℚ) * every⌋₊ + 1) k = 0) :
    selectOfP data every i a avg = ⌊(i : ℚ) * every⌋₊ + 1 := by
  simp only [selectOfP]
  rcases hc : (⌊(i + 1 : ℚ) * every⌋₊ + 1) - (⌊(i : ℚ) * every⌋₊ + 1) with _ | m
  · rfl
  · rw [hc] at hz
    rw [List.range_succ_eq_map, List.foldl_cons, selectStepP_eq,
      hz 0 (List.mem_range.mpr (Nat.succ_pos m)),
      if_pos (by norm_num : (-1 : ℚ) < 0)]
    rw [foldl_select_keep data _ _ _ _ _ _
      (fun k hk => by
        rcases List.mem_map.mp hk with ⟨j, hj, rfl⟩
        exact hz (j + 1)
          (List.mem_range.mpr (Nat.succ_lt_succ (List.mem_range.mp hj))))
      le_rfl]

theorem foldl_avg_line (data : List DataPoint) (start : Nat) (u v w : ℚ)
    (hline : ∀ p ∈ data, u * p.x + v * p.y = w) :
    ∀ (l : List Nat) (acc : ℚ × ℚ), (∀ k ∈ l, start + k < data.length) →
      u * (l.foldl (avgStepP data start) acc).1 +
        v * (l.foldl (avgStepP data start) acc).2 =
      u * acc.1 + v * acc.2 + l.length * w
  | [], acc, _ => by simp
  | a :: l, acc, hb => by
    rw [List.foldl_cons]
    have hp := hline _ (getD_mem data (start + a) (hb a (List.mem_cons_self a l)))
    have ih := foldl_avg_line data start u v w hline l
      (avgStepP data start acc a) (fun k hk => hb k (List.mem_cons_of_mem a hk))
    rw [ih]
    simp only [avgStepP, List.length_cons]
    push_cast
    linear_combination hp

theorem avg_pair_line (data : List DataPoint) (start len : Nat) (u v w : ℚ)
    (hline : ∀ p ∈ data, u * p.x + v * p.y = w)
    (hb : ∀ k ∈ List.range len, start + k < data.length) (hlen : 1 ≤ len) :
    u * (((List.range len).foldl (avgStepP data start) ((0 : ℚ), (0 : ℚ))).1 /
        (len : ℚ)) +
      v * (((List.range len).foldl (avgStepP data start) ((0 : ℚ), (0 : ℚ))).2 /
        (len : ℚ)) = w := by
  have hsum := foldl_avg_line data start u v w hline (List.range len)
    ((0 : ℚ), (0 : ℚ)) hb
  simp only [List.length_range] at hsum
  have hlen0 : ((len : ℚ)) ≠ 0 := Nat.cast_ne_zero.mpr (by omega)
  field_simp
  linear_combination hsum

theorem avgOfP_line (data : List DataPoint) (every : ℚ) (i : Nat) (u v w : ℚ)
    (hline : ∀ p ∈ data, u * p.x + v * p.y = w)
    (hne : ⌊(i + 1 : ℚ) * every⌋₊ + 1 <
      (if data.length ≤ ⌊(i + 2 : ℚ) * every⌋₊ + 1 then data.length
       else ⌊(i + 2 : ℚ) * every⌋₊ + 1)) :
    u * (avgOfP data every i).1 + v * (avgOfP data every i).2 = w := by
  have hEn : (if data.length ≤ ⌊(i + 2 : ℚ) * every⌋₊ + 1 then data.length
      else ⌊(i + 2 : ℚ) * every⌋₊ + 1) ≤ data.length := by
    split
    · exact le_rfl
    · omega
  simp only [avgOfP]
  exact avg_pair_line data (⌊(i + 1 : ℚ) * every⌋₊ + 1) _ u v w hline
    (fun k hk => by
      have := List.mem_range.mp hk
      omega)
    (by omega)

theorem det_zero_of_line (u v w pax pay px py ax ay : ℚ)
    (huv : ¬(u = 0 ∧ v = 0))
    (h1 : u * pax + v * pay = w) (h2 : u * px + v * py = w)
    (h3 : u * ax + v * ay = w) :
    (pax - ax) * (py - pay) - (pax - px) * (ay - pay) = 0 := by
  by_cases hu : u = 0
  · have hv : v ≠ 0 := fun hv => huv ⟨hu, hv⟩
    subst hu
    simp only [zero_mul, zero_add] at h1 h2 h3
    have hpy : py = pay := mul_left_cancel₀ hv (by rw [h2, h1])
    have hay : ay = pay := mul_left_cancel₀ hv (by rw [h3, h1])
    rw [hpy, hay]
    ring
  · have key : u * ((pax - ax) * (py - pay) - (pax - px) * (ay - pay)) =
        (py - pay) * ((u * pax + v * pay) - (u * ax + v * ay)) -
        (ay - pay) * ((u * pax + v * pay) - (u * px + v * py)) := by ring
    rw [h1, h2, h3] at key
    simp only [sub_self, mul_zero, sub_zero] at key
    exact (mul_eq_zero.mp key).resolve_left hu

theorem areaP_zero (data : List DataPoint) (pa : DataPoint) (ax ay : ℚ)
    (ro k : Nat) (u v w : ℚ) (huv : ¬(u = 0 ∧ v = 0))
    (hpa : u * pa.x + v * pa.y = w)
    (hp : u * (data.getD (ro + k) dflt).x +
      v * (data.getD (ro + k) dflt).y = w)
    (havg : u * ax + v * ay = w) :
    areaP data pa ax ay ro k = 0 := by
  rw [areaP,
    det_zero_of_line u v w pa.x pa.y (data.getD (ro + k) dflt).x
      (data.getD (ro + k) dflt).y ax ay huv hpa hp havg,
    abs_zero, zero_mul]

theorem lttbLoop_collinear (data : List DataPoint) (t : Nat) (h3 : 3 ≤ t)
    (hlt : t < data.length) (u v w : ℚ) (huv : ¬(u = 0 ∧ v = 0))
    (hline : ∀ p ∈ data, u * p.x + v * p.y = w) :
    ∀ (r i a : Nat) (sampled : List DataPoint),
      i + r = t - 2 → a ≤ bucketBound data.length t i →
      lttbLoop data (((data.length - 2 : ℕ) : ℚ) / ((t - 2 : ℕ) : ℚ))
          r i a sampled =
        .ok (sampled ++ (List.range r).map
          (fun k => data.getD (bucketBound data.length t (i + k) + 1) dflt)) := by
  intro r
  induction r with
  | zero =>
    intro i a sampled _ _
    simp [lttbLoop]
  | succ r ih =>
    intro i a sampled hi ha
    have hD : 0 < t - 2 := by omega
    have hDN : t - 2 ≤ data.length - 2 := by omega
    have hn4 : 4 ≤ data.length := by omega
    have hbb1n : bucketBound data.length t (i + 1) ≤ data.length - 2 :=
      bucketBound_le hD (by omega)
    have hstrict01 : bucketBound data.length t i + 1 ≤
        bucketBound data.length t (i + 1) := bucketBound_strict hDN hD i
    have hstrict12 : bucketBound data.length t (i + 1) + 1 ≤
        bucketBound data.length t (i + 2) := bucketBound_strict hDN hD (i + 1)
    have ha_lt : a < data.length :=
      lt_of_le_of_lt
        (le_trans ha (bucketBound_le hD (by omega)))
        (by omega)
    have hs' : ⌊((i : ℚ) + 1) *
        (((data.length - 2 : ℕ) : ℚ) / ((t - 2 : ℕ) : ℚ))⌋₊ + 1 ≤
        data.length := by
      rw [natFloor_every1]
      omega
    have hm12' : ⌊((i : ℚ) + 1) *
        (((data.length - 2 : ℕ) : ℚ) / ((t - 2 : ℕ) : ℚ))⌋₊ ≤
        ⌊((i : ℚ) + 2) * (((data.length - 2 : ℕ) : ℚ) / ((t - 2 : ℕ) : ℚ))⌋₊ := by
      rw [natFloor_every1, natFloor_every2]
      exact bucketBound_mono _ _ (by omega)
    have hm01' : ⌊(i : ℚ) *
        (((data.length - 2 : ℕ) : ℚ) / ((t - 2 : ℕ) : ℚ))⌋₊ ≤
        ⌊((i : ℚ) + 1) * (((data.length - 2 : ℕ) : ℚ) / ((t - 2 : ℕ) : ℚ))⌋₊ := by
      rw [natFloor_every0, natFloor_every1]
      exact bucketBound_mono _ _ (by omega)
    have hne' : ⌊((i : ℚ) + 1) *
        (((data.length - 2 : ℕ) : ℚ) / ((t - 2 : ℕ) : ℚ))⌋₊ + 1 <
        (if data.length ≤ ⌊((i : ℚ) + 2) *
            (((data.length - 2 : ℕ) : ℚ) / ((t - 2 : ℕ) : ℚ))⌋₊ + 1
         then data.length
         else ⌊((i : ℚ) + 2) *
            (((data.length - 2 : ℕ) : ℚ) / ((t - 2 : ℕ) : ℚ))⌋₊ + 1) := by
      rw [natFloor_every1, natFloor_every2]
      split
      · omega
      · omega
    have hbody := lttbBody_ok data
      (((data.length - 2 : ℕ) : ℚ) / ((t - 2 : ℕ) : ℚ)) i a
      (every_nonneg data.length t) ha_lt hs' hm12' hm01'
    have hz : ∀ k ∈ List.range
        ((⌊((i : ℚ) + 1) *
            (((data.length - 2 : ℕ) : ℚ) / ((t - 2 : ℕ) : ℚ))⌋₊ + 1) -
         (⌊(i : ℚ) * (((data.length - 2 : ℕ) : ℚ) / ((t - 2 : ℕ) : ℚ))⌋₊ + 1)),
        areaP data (data.getD a dflt)
          (avgOfP data (((data.length - 2 : ℕ) : ℚ) / ((t - 2 : ℕ) : ℚ)) i).1
          (avgOfP data (((data.length - 2 : ℕ) : ℚ) / ((t - 2 : ℕ) : ℚ)) i).2
          (⌊(i : ℚ) * (((data.length - 2 : ℕ) : ℚ) / ((t - 2 : ℕ) : ℚ))⌋₊ + 1)
          k = 0 := by
      intro k hk
      have hk' := List.mem_range.mp hk
      rw [natFloor_every0, natFloor_every1] at hk'
      have hidx : ⌊(i : ℚ) *
          (((data.length - 2 : ℕ) : ℚ) / ((t - 2 : ℕ) : ℚ))⌋₊ + 1 + k <
          data.length := by
        rw [natFloor_every0]
        omega
      exact areaP_zero data _ _ _ _ k u v w huv
        (hline _ (getD_mem data a ha_lt))
        (hline _ (getD_mem data _ hidx))
        (avgOfP_line data _ i u v w hline hne')
    have hchoice : stepChoice data
        (((data.length - 2 : ℕ) : ℚ) / ((t - 2 : ℕ) : ℚ)) i a =
        bucketBound data.length t i + 1 := by
      rw [stepChoice, selectOfP_zero data _ i a _ hz, natFloor_every0]
    have hc_lt : stepChoice data
        (((data.length - 2 : ℕ) : ℚ) / ((t - 2 : ℕ) : ℚ)) i a <
        data.length := by
      rw [hchoice]
      omega
    have hih := ih (i + 1)
      (stepChoice data (((data.length - 2 : ℕ) : ℚ) / ((t - 2 : ℕ) : ℚ)) i a)
      (sampled ++ [data.getD
        (stepChoice data (((data.length - 2 : ℕ) : ℚ) / ((t - 2 : ℕ) : ℚ)) i a)
        dflt])
      (by omega) (by rw [hchoice]; omega)
    rw [lttbLoop]
    simp only [hbody, ok_bind, getPoint, if_pos hc_lt]
    rw [hih, hchoice]
    have hlist : (List.range (r + 1)).map
        (fun k => data.getD (bucketBound data.length t (i + k) + 1) dflt) =
        data.getD (bucketBound data.length t i + 1) dflt ::
          (List.range r).map
            (fun k => data.getD (bucketBound data.length t (i + 1 + k) + 1)
              dflt) := by
      simp only [List.range_succ_eq_map, List.map_cons, List.map_map,
        Nat.add_zero]
      have hfun : ((fun k =>
          data.getD (bucketBound data.length t (i + k) + 1) dflt) ∘
            Nat.succ) =
          (fun k =>
            data.getD (bucketBound data.length t (i + 1 + k) + 1) dflt) := by
        funext k
        simp only [Function.comp_apply]
        rw [show i + Nat.succ k = i + 1 + k by omega]
      rw [hfun]
    rw [hlist]
    simp

theorem lttb_collinear (data : List DataPoint) (t : Nat) (u v w : ℚ)
    (h2 : 2 ≤ t) (hlt : t < data.length) (huv : ¬(u = 0 ∧ v = 0))
    (hline : ∀ p ∈ data, u * p.x + v * p.y = w) :
    lttb data t = .ok (some (data.getD 0 dflt ::
      ((List.range (t - 2)).map
        (fun i => data.getD (bucketBound data.length t i + 1) dflt) ++
       [data.getD (data.length - 1) dflt]))) := by
  rcases Nat.lt_or_ge t 3 with h23 | h3
  · have ht2 : t = 2 := by omega
    subst ht2
    rw [lttb_two data (by omega)]
    norm_num
  · have hg : ¬(t ≥ data.length ∨ t = 0) := by omega
    have h1 : usizeSub data.length 2 = .ok (data.length - 2) := by
      rw [usizeSub, if_pos (by omega)]
    have h2' : usizeSub t 2 = (.ok (t - 2) : M Nat) := by
      rw [usizeSub, if_pos (by omega)]
    have hrun := lttbLoop_collinear data t h3 hlt u v w huv hline
      (t - 2) 0 0 [data.getD 0 dflt] (by omega) (by simp [bucketBound])
    rw [lttb, if_neg hg]
    simp only [h1, ok_bind, h2', getPoint,
      if_pos (show 0 < data.length by omega),
      if_pos (show data.length - 1 < data.length by omega), hrun]
    simp

/-- C9: for every valid downsampling call (`2 ≤ threshold < length`) on a
collinear series (all points on the line `u*x + v*y = w` with `(u,v) ≠ 0`, so
every candidate triangle area is zero), `lttb` succeeds, still returns exactly
`threshold` points, and every intermediate output point is the FIRST point of
its selection bucket (index `floor(i*every) + 1`): the running maximum starts
at `-1`, the first candidate's zero area replaces it, and later equal areas
never strictly exceed it. -/
theorem C9_collinear_first_of_bucket (data : List DataPoint) (t : Nat)
    (u v w : ℚ) (h2 : 2 ≤ t) (hlt : t < data.length)
    (huv : ¬(u = 0 ∧ v = 0))
    (hline : ∀ p ∈ data, u * p.x + v * p.y = w) :
    lttb data t = .ok (some (data.getD 0 dflt ::
      ((List.range (t - 2)).map
        (fun i => data.getD (bucketBound data.length t i + 1) dflt) ++
       [data.getD (data.length - 1) dflt]))) ∧
    (data.getD 0 dflt ::
      ((List.range (t - 2)).map
        (fun i => data.getD (bucketBound data.length t i + 1) dflt) ++
       [data.getD (data.length - 1) dflt])).length = t := by
  refine ⟨lttb_collinear data t u v w h2 hlt huv hline, ?_⟩
  simp only [List.length_cons, List.length_append, List.length_map,
    List.length_range, List.length_nil]
  omega

/-- Witness for C9: the collinear series `[(0,0),(1,1),(2,2),(3,3)]` (line
`x - y = 0`) with threshold 3. -/
theorem C9_collinear_first_of_bucket_witness :
    ((2 ≤ 3 ∧ 3 < ([⟨0, 0⟩, ⟨1, 1⟩, ⟨2, 2⟩, ⟨3, 3⟩] :
        List DataPoint).length) ∧
      ¬((1 : ℚ) = 0 ∧ (-1 : ℚ) = 0)) ∧
    (lttb [⟨0, 0⟩, ⟨1, 1⟩, ⟨2, 2⟩, ⟨3, 3⟩] 3 =
      .ok (some (([⟨0, 0⟩, ⟨1, 1⟩, ⟨2, 2⟩, ⟨3, 3⟩] :
          List DataPoint).getD 0 dflt ::
        ((List.range (3 - 2)).map
          (fun i => ([⟨0, 0⟩, ⟨1, 1⟩, ⟨2, 2⟩, ⟨3, 3⟩] :
            List DataPoint).getD
              (bucketBound ([⟨0, 0⟩, ⟨1, 1⟩, ⟨2, 2⟩, ⟨3, 3⟩] :
                List DataPoint).length 3 i + 1) dflt) ++
         [([⟨0, 0⟩, ⟨1, 1⟩, ⟨2, 2⟩, ⟨3, 3⟩] : List DataPoint).getD
            (([⟨0, 0⟩, ⟨1, 1⟩, ⟨2, 2⟩, ⟨3, 3⟩] :
              List DataPoint).length - 1) dflt]))) ∧
      (([⟨0, 0⟩, ⟨1, 1⟩, ⟨2, 2⟩, ⟨3, 3⟩] : List DataPoint).getD 0 dflt ::
        ((List.range (3 - 2)).map
          (fun i => ([⟨0, 0⟩, ⟨1, 1⟩, ⟨2, 2⟩, ⟨3, 3⟩] :
            List DataPoint).getD
              (bucketBound ([⟨0, 0⟩, ⟨1, 1⟩, ⟨2, 2⟩, ⟨3, 3⟩] :
                List DataPoint).length 3 i + 1) dflt) ++
         [([⟨0, 0⟩, ⟨1, 1⟩, ⟨2, 2⟩, ⟨3, 3⟩] : List DataPoint).getD
            (([⟨0, 0⟩, ⟨1, 1⟩, ⟨2, 2⟩, ⟨3, 3⟩] :
              List DataPoint).length - 1) dflt])).length = 3) :=
  ⟨⟨⟨by decide, by decide⟩, by norm_num⟩,
    C9_collinear_first_of_bucket [⟨0, 0⟩, ⟨1, 1⟩, ⟨2, 2⟩, ⟨3, 3⟩] 3 1 (-1) 0
      (by decide) (by decide) (by norm_num)
      (by
        intro p hp
        simp only [List.mem_cons, List.not_mem_nil, or_false] at hp
        rcases hp with rfl | rfl | rfl | rfl <;> norm_num)⟩

/-- C10: for every series and threshold with `3 ≤ threshold < series.length`,
under exact rational arithmetic the call succeeds with a downsampled output —
so every slice access is in bounds and neither `avg_range_end -
avg_range_start` nor `range_to - range_offs` underflows (any of those would be
the panic outcome) — and moreover every iteration's averaging bucket is
non-empty: its start index `floor((i+1)*every) + 1` is strictly below its
clamped end index, so `avg_range_length` is never zero when used as a
divisor. -/
theorem C10_index_safety (data : List DataPoint) (t : Nat) (h3 : 3 ≤ t)
    (hlt : t < data.length) :
    (∃ out, lttb data t = .ok (some out)) ∧
    ∀ i, i < t - 2 →
      ⌊(i + 1 : ℚ) * (((data.length - 2 : ℕ) : ℚ) / ((t - 2 : ℕ) : ℚ))⌋₊ + 1 <
        (if data.length ≤
            ⌊(i + 2 : ℚ) *
              (((data.length - 2 : ℕ) : ℚ) / ((t - 2 : ℕ) : ℚ))⌋₊ + 1
         then data.length
         else ⌊(i + 2 : ℚ) *
            (((data.length - 2 : ℕ) : ℚ) / ((t - 2 : ℕ) : ℚ))⌋₊ + 1) := by
  constructor
  · obtain ⟨js, hrun, _, _, _⟩ := lttb_valid data t h3 hlt
    exact ⟨_, hrun⟩
  · intro i hi
    have hD : 0 < t - 2 := by omega
    have hDN : t - 2 ≤ data.length - 2 := by omega
    have hbb1n : bucketBound data.length t (i + 1) ≤ data.length - 2 :=
      bucketBound_le hD (by omega)
    have hstrict : bucketBound data.length t (i + 1) + 1 ≤
        bucketBound data.length t (i + 2) := bucketBound_strict hDN hD (i + 1)
    rw [natFloor_every1, natFloor_every2]
    split
    · omega
    · omega

/-- Witness for C10 at the concrete 5-point example with threshold 3. -/
theorem C10_index_safety_witness :
    (3 ≤ 3 ∧ 3 < ([⟨0, 10⟩, ⟨1, 12⟩, ⟨2, 8⟩, ⟨3, 10⟩, ⟨4, 12⟩] :
      List DataPoint).length) ∧
    ((∃ out, lttb [⟨0, 10⟩, ⟨1, 12⟩, ⟨2, 8⟩, ⟨3, 10⟩, ⟨4, 12⟩] 3 =
        .ok (some out)) ∧
      ∀ i : ℕ, i < 3 - 2 →
        ⌊(i + 1 : ℚ) *
            (((([⟨0, 10⟩, ⟨1, 12⟩, ⟨2, 8⟩, ⟨3, 10⟩, ⟨4, 12⟩] :
              List DataPoint).length - 2 : ℕ) : ℚ) /
              ((3 - 2 : ℕ) : ℚ))⌋₊ + 1 <
          (if ([⟨0, 10⟩, ⟨1, 12⟩, ⟨2, 8⟩, ⟨3, 10⟩, ⟨4, 12⟩] :
              List DataPoint).length ≤
              ⌊(i + 2 : ℚ) *
                (((([⟨0, 10⟩, ⟨1, 12⟩, ⟨2, 8⟩, ⟨3, 10⟩, ⟨4, 12⟩] :
                  List DataPoint).length - 2 : ℕ) : ℚ) /
                  ((3 - 2 : ℕ) : ℚ))⌋₊ + 1
           then ([⟨0, 10⟩, ⟨1, 12⟩, ⟨2, 8⟩, ⟨3, 10⟩, ⟨4, 12⟩] :
              List DataPoint).length
           else ⌊(i + 2 : ℚ) *
              (((([⟨0, 10⟩, ⟨1, 12⟩, ⟨2, 8⟩, ⟨3, 10⟩, ⟨4, 12⟩] :
                List DataPoint).length - 2 : ℕ) : ℚ) /
                ((3 - 2 : ℕ) : ℚ))⌋₊ + 1)) :=
  ⟨⟨by decide, by decide⟩,
    C10_index_safety [⟨0, 10⟩, ⟨1, 12⟩, ⟨2, 8⟩, ⟨3, 10⟩, ⟨4, 12⟩] 3
      (by decide) (by decide)⟩

/-- C8: on the series `[(0,10),(1,12),(2,8),(3,10),(4,12)]` with threshold 3,
`lttb` succeeds and returns exactly `[(0,10),(2,8),(4,12)]`. -/
theorem C8_concrete_scenario :
    lttb [⟨0, 10⟩, ⟨1, 12⟩, ⟨2, 8⟩, ⟨3, 10⟩, ⟨4, 12⟩] 3 =
      .ok (some [⟨0, 10⟩, ⟨2, 8⟩, ⟨4, 12⟩]) :=
  lttb_concrete_eval

end Lttb
